import Mathlib

/-!
Shallow embedding of the Character-Hunter bot (src/main.py).

The bot keeps two Mongo collections: db.pending (one pending roll per user,
maintained by update_one upsert / delete_one keyed on user_id) and db.users
(per-user documents {user_id, last_catch, waifus_map}).  We model each
collection as a list of documents in insertion order: find_one returns the
first document matching user_id, update_one modifies the first match (or
appends on upsert), delete_one removes the first match.  A user's waifus_map
is a Python dict collectible_id -> {name, img, rarity, count}; we model it as
an association list in insertion order (dict update keeps position, dict
insert appends).  The count field can be absent (the code reads it with
.get("count", ...)), so it is an Option.  Timestamps are Int (int(time.time())).
External effects (the RNG and the $sample draw) enter as parameters: the
sampled waifu is an Option Waifu and the chosen rarity a String, exactly the
data the handlers consume.
-/

namespace WaifuBot

/-- One value of a user's waifus_map: {name, img, rarity, count}.  The code
reads count with .get("count", default), so it may be absent. -/
structure OwnedEntry where
  name : String
  img : Option String
  rarity : String
  count : Option Nat
deriving Repr, DecidableEq

/-- A document of db.pending: {user_id, waifu_id, name, img, rarity, ts}. -/
structure PendingRoll where
  user_id : Nat
  waifu_id : String
  name : String
  img : Option String
  rarity : String
  ts : Int
deriving Repr, DecidableEq

/-- A document of db.users: {user_id, last_catch, waifus_map}.  last_catch is
absent until the first catch (the claim path creates the document with only
user_id), so it is an Option. -/
structure UserRecord where
  user_id : Nat
  last_catch : Option Int
  waifus_map : List (String × OwnedEntry)
deriving Repr, DecidableEq

/-- A catalog document of db.waifus, as consumed by cmd_catch. -/
structure Waifu where
  waifu_id : String
  name : String
  img : Option String
deriving Repr, DecidableEq

/-- The mutable store: db.pending and db.users, each in insertion order. -/
structure DB where
  pending : List PendingRoll
  users : List UserRecord
deriving Repr, DecidableEq

/-- RARITY_WEIGHTS from main.py. -/
def RARITY_WEIGHTS : List (String × Nat) :=
  [("Legendary", 2), ("Epic", 8), ("Rare", 20), ("Common", 70)]

/-- build_rarity_choice: items.extend([r] * w) for each (r, w) pair. -/
def build_rarity_choice : List String :=
  RARITY_WEIGHTS.foldl (fun items rw => items ++ List.replicate rw.2 rw.1) []

/-- RARITY_CHOICES = build_rarity_choice(). -/
def RARITY_CHOICES : List String := build_rarity_choice

/-- pick_rarity: random.choice(RARITY_CHOICES).  random.choice draws a uniform
index into the list; we expose that index (reduced mod the length) as the
argument. -/
def pick_rarity (n : Nat) : String :=
  RARITY_CHOICES.getD (n % RARITY_CHOICES.length) ""

/-- db.users.find_one({"user_id": uid}): first matching document. -/
def findUser (us : List UserRecord) (uid : Nat) : Option UserRecord :=
  us.find? (fun u => u.user_id == uid)

/-- db.pending.find_one({"user_id": uid}): first matching document. -/
def findPending (ps : List PendingRoll) (uid : Nat) : Option PendingRoll :=
  ps.find? (fun p => p.user_id == uid)

/-- db.pending.update_one({"user_id": p.user_id}, {"$set": all fields},
upsert=True): replace the first document of that user, or append a new one. -/
def upsertPending (ps : List PendingRoll) (p : PendingRoll) : List PendingRoll :=
  match ps with
  | [] => [p]
  | q :: rest => if q.user_id == p.user_id then p :: rest else q :: upsertPending rest p

/-- db.pending.delete_one({"user_id": uid}): remove the first match. -/
def deletePending (ps : List PendingRoll) (uid : Nat) : List PendingRoll :=
  match ps with
  | [] => []
  | q :: rest => if q.user_id == uid then rest else q :: deletePending rest uid

/-- db.users.update_one({"user_id": uid}, {"$set": {"last_catch": now}},
upsert=True): set last_catch on the first matching document, or insert
{user_id, last_catch}. -/
def setLastCatch (us : List UserRecord) (uid : Nat) (now : Int) : List UserRecord :=
  match us with
  | [] => [⟨uid, some now, []⟩]
  | u :: rest =>
    if u.user_id == uid then { u with last_catch := some now } :: rest
    else u :: setLastCatch rest uid now

/-- db.users.update_one({"user_id": uid}, {"$inc": {}, "$setOnInsert":
{"user_id": uid}}, upsert=True): a no-op when the user document exists,
otherwise insert a bare {user_id} document. -/
def ensureUser (us : List UserRecord) (uid : Nat) : List UserRecord :=
  match us with
  | [] => [⟨uid, none, []⟩]
  | u :: rest => if u.user_id == uid then u :: rest else u :: ensureUser rest uid

/-- db.users.update_one({"user_id": uid}, {"$set": {"waifus_map": m}}):
overwrite waifus_map on the first matching document (no upsert). -/
def setWaifusMap (us : List UserRecord) (uid : Nat) (m : List (String × OwnedEntry)) :
    List UserRecord :=
  match us with
  | [] => []
  | u :: rest =>
    if u.user_id == uid then { u with waifus_map := m } :: rest
    else u :: setWaifusMap rest uid m

/-- Python dict read: waifus_map.get(wid) on an insertion-ordered dict. -/
def mapLookup (m : List (String × OwnedEntry)) (k : String) : Option OwnedEntry :=
  match m with
  | [] => none
  | kv :: rest => if kv.1 == k then some kv.2 else mapLookup rest k

/-- Python dict write at an existing key: the entry keeps its position. -/
def mapSet (m : List (String × OwnedEntry)) (k : String) (v : OwnedEntry) :
    List (String × OwnedEntry) :=
  match m with
  | [] => [(k, v)]
  | kv :: rest => if kv.1 == k then (k, v) :: rest else kv :: mapSet rest k v

/-- user_doc.get("waifus_map", {}) if user_doc else {}. -/
def waifusMapIn (us : List UserRecord) (uid : Nat) : List (String × OwnedEntry) :=
  match findUser us uid with
  | some u => u.waifus_map
  | none => []

/-- The waifus_map the store holds for uid. -/
def getWaifusMap (db : DB) (uid : Nat) : List (String × OwnedEntry) :=
  waifusMapIn db.users uid

/-- userdoc.get("last_catch", 0) if userdoc else 0, as cmd_catch reads it. -/
def lastCatchOf (db : DB) (uid : Nat) : Int :=
  match findUser db.users uid with
  | some u => u.last_catch.getD 0
  | none => 0

/-- The reply of cmd_catch. -/
inductive CatchResult where
  | cooldown (remain : Int)
  | noWaifus
  | rolled (name : String) (rarity : String)
deriving Repr, DecidableEq

/-- cmd_catch (main.py lines 124-171).  Inputs beyond the store: the user id,
the current time now = int(time.time()), the $sample result w (none when the
catalog is empty), the rarity pick_rarity() returned, and COOLDOWN_SECONDS.
The source also reads the pending document into last_ts, which is never used
afterwards (dead code); we keep the read to mirror the handler. -/
def cmd_catch (db : DB) (uid : Nat) (now : Int) (w : Option Waifu) (rarity : String)
    (cooldownSeconds : Int) : DB × CatchResult :=
  let _last_ts : Int :=
    match findPending db.pending uid with
    | some p => p.ts
    | none => 0
  let last_catch : Int := lastCatchOf db uid
  if now - last_catch < cooldownSeconds then
    (db, .cooldown (cooldownSeconds - (now - last_catch)))
  else
    match w with
    | none => (db, .noWaifus)
    | some w =>
      let p : PendingRoll := ⟨uid, w.waifu_id, w.name, w.img, rarity, now⟩
      ({ pending := upsertPending db.pending p,
         users := setLastCatch db.users uid now },
       .rolled w.name rarity)

/-- The reply of cmd_claim. -/
inductive ClaimResult where
  | nothingToClaim
  | claimed (name : String) (rarity : String) (count : Nat)
deriving Repr, DecidableEq

/-- The waifus_map update of cmd_claim (main.py lines 201-210): if the id is
already a key, only count is touched (count = get("count", 1) + 1); else a new
entry {name, img, rarity, count = 1} is appended. -/
def updateOwned (m : List (String × OwnedEntry)) (pend : PendingRoll) :
    List (String × OwnedEntry) :=
  match mapLookup m pend.waifu_id with
  | some e => mapSet m pend.waifu_id { e with count := some (e.count.getD 1 + 1) }
  | none => m ++ [(pend.waifu_id, ⟨pend.name, pend.img, pend.rarity, some 1⟩)]

/-- cmd_claim (main.py lines 173-217): read the pending document (absence is
the "nothing to claim" failure with no writes); upsert the bare user document;
update waifus_map per updateOwned; persist it; delete the pending document;
reply from the stored entry. -/
def cmd_claim (db : DB) (uid : Nat) : DB × ClaimResult :=
  match findPending db.pending uid with
  | none => (db, .nothingToClaim)
  | some pend =>
    let users1 := ensureUser db.users uid
    let waifus_map := waifusMapIn users1 uid
    let waifus_map2 := updateOwned waifus_map pend
    let entry := (mapLookup waifus_map2 pend.waifu_id).getD
      ⟨pend.name, pend.img, pend.rarity, some 1⟩
    ({ pending := deletePending db.pending uid,
       users := setWaifusMap users1 uid waifus_map2 },
     .claimed entry.name entry.rarity (entry.count.getD 0))

/-- The reply of cmd_inventory. -/
inductive InventoryResult where
  | empty
  | listing (lines : List String)
deriving Repr, DecidableEq

/-- The sort key of cmd_inventory, line 229: sorted by
(-info.get("count", 0), info.get("rarity", "")), i.e. count descending then
rarity string ascending, as a boolean total preorder for the stable sort. -/
def invLE (a b : String × OwnedEntry) : Bool :=
  decide (b.2.count.getD 0 < a.2.count.getD 0) ||
    (a.2.count.getD 0 == b.2.count.getD 0 && decide (a.2.rarity ≤ b.2.rarity))

/-- One rendered line, 1-indexed: "{i}. {name} — {rarity} x{count}".  Line 230
reads info['count'] by direct subscript, so an entry with no count field
raises KeyError: the rendering is fallible and none stands for that raised
KeyError. -/
def invLine (i : Nat) (kv : String × OwnedEntry) : Option String :=
  match kv.2.count with
  | some c =>
    some (toString (i + 1) ++ ". " ++ kv.2.name ++ " — " ++ kv.2.rarity ++
      " x" ++ toString c)
  | none => none

/-- The rendering loop of lines 228-231: one failed line makes the KeyError
propagate out of the handler, so the loop yields all its lines or nothing. -/
def seqLines (xs : List (Option String)) : Option (List String) :=
  match xs with
  | [] => some []
  | none :: _ => none
  | some s :: rest =>
    match seqLines rest with
    | some ls => some (s :: ls)
    | none => none

/-- cmd_inventory (main.py lines 219-233): empty message when the map is
empty; else the first 20 entries of the stable sort, rendered 1-indexed.  A
rendered entry lacking count raises KeyError and the command aborts with no
reply: the none result. -/
def cmd_inventory (db : DB) (uid : Nat) : Option InventoryResult :=
  let m := getWaifusMap db uid
  if m.isEmpty then some .empty
  else
    match seqLines (((m.mergeSort invLE).take 20).mapIdx invLine) with
    | some lines => some (.listing lines)
    | none => none

/-- sum(info.get("count", 0) for info in waifus_map.values()). -/
def totalCount (m : List (String × OwnedEntry)) : Nat :=
  (m.map (fun kv => kv.2.count.getD 0)).sum

/-- The reply of cmd_leaderboard: noData for "No data yet.", else the (user_id,
total) pairs in rank order (display-name resolution is external). -/
inductive LeaderboardResult where
  | noData
  | board (entries : List (Nat × Nat))
deriving Repr, DecidableEq

/-- The sort of line 258, sorted(scores, key=lambda x: -x[1]): stable,
total descending. -/
def lbLE (a b : Nat × Nat) : Bool := b.2 ≤ a.2

/-- The per-document body of the leaderboard scan, lines 253-257: total owned
count, kept as (user_id, total) when positive. -/
def lbScore (d : UserRecord) : Option (Nat × Nat) :=
  let total := totalCount d.waifus_map
  if total > 0 then some (d.user_id, total) else none

/-- cmd_leaderboard (main.py lines 247-270): scan the first 100 user
documents, keep (user_id, total) for total > 0, sort by total descending
(stable), take 10; empty means "No data yet.". -/
def cmd_leaderboard (db : DB) : LeaderboardResult :=
  let docs := db.users.take 100
  let scores := docs.filterMap lbScore
  let top := (scores.mergeSort lbLE).take 10
  if top.isEmpty then .noData else .board top

/-- At most one pending document per user: the invariant db.pending keeps. -/
def AtMostOnePending (ps : List PendingRoll) : Prop :=
  ps.Pairwise (fun p q => p.user_id ≠ q.user_id)

/-- A concrete store for witnesses: user 7 owns w1 at Common with count 1 and
holds a pending roll of w1 at Legendary. -/
def dbOwned : DB :=
  { pending := [⟨7, "w1", "Aria", none, "Legendary", 100⟩],
    users := [⟨7, some 50, [("w1", ⟨"Aria", none, "Common", some 1⟩)]⟩] }

/-- A concrete store whose owned entry lacks the count field. -/
def dbNoCount : DB :=
  { pending := [⟨7, "w1", "Aria", none, "Legendary", 100⟩],
    users := [⟨7, some 50, [("w1", ⟨"Aria", none, "Common", none⟩)]⟩] }

/-- The empty store. -/
def dbEmpty : DB := ⟨[], []⟩

/-- A concrete store with a user on cooldown (last_catch 100). -/
def dbCooldown : DB := { pending := [], users := [⟨1, some 100, []⟩] }

/-- Same users as dbCooldown, but with a pending roll stamped ts 5. -/
def dbPendingA : DB :=
  { pending := [⟨1, "w", "W", none, "Rare", 5⟩], users := [⟨1, some 100, []⟩] }

/-- Same users as dbPendingA, but the pending roll is stamped ts 999. -/
def dbPendingB : DB :=
  { pending := [⟨1, "w", "W", none, "Rare", 999⟩], users := [⟨1, some 100, []⟩] }

/-- A concrete catalog document. -/
def wAria : Waifu := ⟨"w1", "Aria", none⟩

/-- Another concrete catalog document. -/
def wBeth : Waifu := ⟨"w2", "Beth", none⟩

/-- The store after user 1 catches wAria at time 100 starting from dbEmpty. -/
def dbStep1 : DB := (cmd_catch dbEmpty 1 100 (some wAria) "Rare" 15).1

/-- The store after user 1 then catches wBeth at time 200. -/
def dbStep2 : DB := (cmd_catch dbStep1 1 200 (some wBeth) "Epic" 15).1

/-- The store after user 1 then claims. -/
def dbStep3 : DB := (cmd_claim dbStep2 1).1

theorem mapLookup_mapSet_self (m : List (String × OwnedEntry)) (k : String)
    (v : OwnedEntry) : mapLookup (mapSet m k v) k = some v := by
  induction m with
  | nil => simp [mapSet, mapLookup]
  | cons kv rest ih =>
    by_cases h : kv.1 = k
    · simp [mapSet, mapLookup, h]
    · simp [mapSet, mapLookup, h, ih]

theorem mapLookup_mapSet_ne (m : List (String × OwnedEntry)) (k k' : String)
    (v : OwnedEntry) (hk : k' ≠ k) :
    mapLookup (mapSet m k v) k' = mapLookup m k' := by
  induction m with
  | nil => simp [mapSet, mapLookup, Ne.symm hk]
  | cons kv rest ih =>
    by_cases h : kv.1 = k
    · simp [mapSet, mapLookup, h, Ne.symm hk]
    · simp [mapSet, mapLookup, h, ih]

theorem mapLookup_append_self (m : List (String × OwnedEntry)) (k : String)
    (v : OwnedEntry) (h : mapLookup m k = none) :
    mapLookup (m ++ [(k, v)]) k = some v := by
  induction m with
  | nil => simp [mapLookup]
  | cons kv rest ih =>
    by_cases hk : kv.1 = k
    · simp [mapLookup, hk] at h
    · simp [mapLookup, hk] at h ⊢
      exact ih h

theorem mapLookup_append_ne (m : List (String × OwnedEntry)) (k k' : String)
    (v : OwnedEntry) (hk : k' ≠ k) :
    mapLookup (m ++ [(k, v)]) k' = mapLookup m k' := by
  induction m with
  | nil => simp [mapLookup, Ne.symm hk]
  | cons kv rest ih =>
    by_cases h : kv.1 = k'
    · simp [mapLookup, h]
    · simp [mapLookup, h, ih]

theorem updateOwned_lookup_of_some (m : List (String × OwnedEntry))
    (p : PendingRoll) (e : OwnedEntry) (he : mapLookup m p.waifu_id = some e) :
    mapLookup (updateOwned m p) p.waifu_id
      = some { e with count := some (e.count.getD 1 + 1) } := by
  unfold updateOwned
  rw [he]
  exact mapLookup_mapSet_self ..

theorem updateOwned_lookup_of_none (m : List (String × OwnedEntry))
    (p : PendingRoll) (he : mapLookup m p.waifu_id = none) :
    mapLookup (updateOwned m p) p.waifu_id
      = some ⟨p.name, p.img, p.rarity, some 1⟩ := by
  unfold updateOwned
  rw [he]
  exact mapLookup_append_self _ _ _ he

theorem updateOwned_lookup_ne (m : List (String × OwnedEntry))
    (p : PendingRoll) (k : String) (hk : k ≠ p.waifu_id) :
    mapLookup (updateOwned m p) k = mapLookup m k := by
  unfold updateOwned
  cases h : mapLookup m p.waifu_id with
  | none => exact mapLookup_append_ne _ _ _ _ hk
  | some e => exact mapLookup_mapSet_ne _ _ _ _ hk

theorem mem_upsertPending (ps : List PendingRoll) (p x : PendingRoll)
    (h : x ∈ upsertPending ps p) : x = p ∨ x ∈ ps := by
  induction ps with
  | nil =>
    simp [upsertPending] at h
    exact Or.inl h
  | cons q rest ih =>
    by_cases hq : q.user_id = p.user_id
    · simp [upsertPending, hq] at h
      rcases h with h | h
      · exact Or.inl h
      · exact Or.inr (List.mem_cons_of_mem _ h)
    · simp [upsertPending, hq] at h
      rcases h with h | h
      · exact Or.inr (h ▸ List.mem_cons_self _ _)
      · rcases ih h with h2 | h2
        · exact Or.inl h2
        · exact Or.inr (List.mem_cons_of_mem _ h2)

theorem atMostOne_upsertPending (ps : List PendingRoll) (p : PendingRoll)
    (hp : AtMostOnePending ps) : AtMostOnePending (upsertPending ps p) := by
  induction ps with
  | nil => simp [upsertPending, AtMostOnePending]
  | cons q rest ih =>
    rcases List.pairwise_cons.mp hp with ⟨hq, hrest⟩
    by_cases h : q.user_id = p.user_id
    · simp only [AtMostOnePending, upsertPending, h, beq_self_eq_true, if_true]
      refine List.pairwise_cons.mpr ⟨?_, hrest⟩
      intro x hx
      rw [← h]
      exact hq x hx
    · simp only [AtMostOnePending, upsertPending, beq_eq_false_iff_ne.mpr h,
        Bool.false_eq_true, if_false]
      refine List.pairwise_cons.mpr ⟨?_, ih hrest⟩
      intro x hx
      rcases mem_upsertPending rest p x hx with rfl | hx'
      · exact h
      · exact hq x hx'

theorem findPending_upsertPending (ps : List PendingRoll) (p : PendingRoll) :
    findPending (upsertPending ps p) p.user_id = some p := by
  induction ps with
  | nil => simp [upsertPending, findPending]
  | cons q rest ih =>
    by_cases h : q.user_id = p.user_id
    · simp [upsertPending, findPending, h]
    · simpa [upsertPending, findPending, h] using ih

theorem findPending_deletePending (ps : List PendingRoll) (uid : Nat)
    (hp : AtMostOnePending ps) : findPending (deletePending ps uid) uid = none := by
  induction ps with
  | nil => simp [deletePending, findPending]
  | cons q rest ih =>
    rcases List.pairwise_cons.mp hp with ⟨hq, hrest⟩
    by_cases h : q.user_id = uid
    · simp only [deletePending, h, beq_self_eq_true, if_true, findPending]
      rw [List.find?_eq_none]
      intro x hx
      simp only [beq_iff_eq]
      intro hxe
      exact hq x hx (h.trans hxe.symm)
    · simpa [deletePending, findPending, h] using ih hrest

theorem waifusMapIn_cons (u : UserRecord) (rest : List UserRecord) (uid : Nat) :
    waifusMapIn (u :: rest) uid =
      if u.user_id = uid then u.waifus_map else waifusMapIn rest uid := by
  by_cases h : u.user_id = uid
  · simp [waifusMapIn, findUser, h]
  · simp [waifusMapIn, findUser, h]

theorem waifusMapIn_ensureUser (us : List UserRecord) (uid : Nat) :
    waifusMapIn (ensureUser us uid) uid = waifusMapIn us uid := by
  induction us with
  | nil => simp [ensureUser, waifusMapIn, findUser, List.find?]
  | cons u rest ih =>
    by_cases h : u.user_id = uid
    · simp [ensureUser, waifusMapIn, findUser, List.find?, h]
    · simpa [ensureUser, waifusMapIn, findUser, h] using ih

theorem findUser_ensureUser_isSome (us : List UserRecord) (uid : Nat) :
    (findUser (ensureUser us uid) uid).isSome := by
  induction us with
  | nil => simp [ensureUser, findUser, List.find?]
  | cons u rest ih =>
    by_cases h : u.user_id = uid
    · simp [ensureUser, findUser, List.find?, h]
    · simpa [ensureUser, findUser, h] using ih

theorem waifusMapIn_setWaifusMap (us : List UserRecord) (uid : Nat)
    (m : List (String × OwnedEntry)) (h : (findUser us uid).isSome) :
    waifusMapIn (setWaifusMap us uid m) uid = m := by
  induction us with
  | nil => simp [findUser, List.find?] at h
  | cons u rest ih =>
    by_cases hu : u.user_id = uid
    · simp [setWaifusMap, hu, waifusMapIn_cons]
    · have h2 : (findUser rest uid).isSome := by
        simpa [findUser, hu] using h
      simp only [setWaifusMap, beq_eq_false_iff_ne.mpr hu, Bool.false_eq_true, if_false]
      rw [waifusMapIn_cons]
      simp [hu, ih h2]

theorem waifusMapIn_setLastCatch (us : List UserRecord) (uid uid' : Nat) (t : Int) :
    waifusMapIn (setLastCatch us uid t) uid' = waifusMapIn us uid' := by
  induction us with
  | nil =>
    by_cases h : uid = uid'
    · simp [setLastCatch, waifusMapIn, findUser, List.find?, h]
    · simp [setLastCatch, waifusMapIn, findUser, List.find?, beq_eq_false_iff_ne.mpr h]
  | cons u rest ih =>
    by_cases h : u.user_id = uid
    · simp only [setLastCatch, h, beq_self_eq_true, if_true]
      rw [waifusMapIn_cons, waifusMapIn_cons]
      simp [h]
    · simp only [setLastCatch, beq_eq_false_iff_ne.mpr h, Bool.false_eq_true, if_false]
      rw [waifusMapIn_cons, waifusMapIn_cons, ih]

theorem cmd_claim_of_no_pending (db : DB) (uid : Nat)
    (h : findPending db.pending uid = none) :
    cmd_claim db uid = (db, ClaimResult.nothingToClaim) := by
  unfold cmd_claim
  rw [h]

theorem cmd_claim_pending_eq (db : DB) (uid : Nat) (p : PendingRoll)
    (h : findPending db.pending uid = some p) :
    (cmd_claim db uid).1.pending = deletePending db.pending uid := by
  unfold cmd_claim
  rw [h]

theorem cmd_claim_getWaifusMap (db : DB) (uid : Nat) (p : PendingRoll)
    (h : findPending db.pending uid = some p) :
    getWaifusMap (cmd_claim db uid).1 uid = updateOwned (getWaifusMap db uid) p := by
  unfold cmd_claim
  rw [h]
  simp only [getWaifusMap]
  rw [waifusMapIn_setWaifusMap _ _ _ (findUser_ensureUser_isSome db.users uid),
    waifusMapIn_ensureUser]

theorem cmd_catch_success (db : DB) (uid : Nat) (now : Int) (w : Waifu)
    (rarity : String) (cd : Int) (h : ¬ now - lastCatchOf db uid < cd) :
    cmd_catch db uid now (some w) rarity cd =
      ({ pending := upsertPending db.pending ⟨uid, w.waifu_id, w.name, w.img, rarity, now⟩,
         users := setLastCatch db.users uid now },
       CatchResult.rolled w.name rarity) := by
  simp [cmd_catch, h]

/-- C1 counterexample: user 7 owns w1 at rarity Common (count 1) and claims a
PendingRoll of w1 at rarity Legendary.  The code increments count to 2 but the
stored rarity stays Common: it is not overwritten with the PendingRoll's
Legendary, contradicting the claimed last-write-wins overwrite. -/
theorem claim_keeps_old_rarity_cex :
    (findPending dbOwned.pending 7).map PendingRoll.rarity = some "Legendary"
    ∧ getWaifusMap (cmd_claim dbOwned 7).1 7
        = [("w1", ⟨"Aria", none, "Common", some 2⟩)]
    ∧ ¬ (mapLookup (getWaifusMap (cmd_claim dbOwned 7).1 7) "w1").map OwnedEntry.rarity
        = some "Legendary" := by
  refine ⟨rfl, rfl, ?_⟩
  decide

/-- C1 (amended): for every user and claim whose PendingRoll's collectible id
is already a key of the collection, the operation increments that entry's
count by exactly 1 (a missing count is treated as 1) and leaves the entry's
rarity, name and image unchanged; the PendingRoll's values do not overwrite
them. -/
theorem claim_existing_increments_count_keeps_metadata (db : DB) (uid : Nat)
    (p : PendingRoll) (e : OwnedEntry)
    (hp : findPending db.pending uid = some p)
    (he : mapLookup (getWaifusMap db uid) p.waifu_id = some e) :
    mapLookup (getWaifusMap (cmd_claim db uid).1 uid) p.waifu_id
      = some { e with count := some (e.count.getD 1 + 1) } := by
  rw [cmd_claim_getWaifusMap db uid p hp]
  exact updateOwned_lookup_of_some _ _ _ he

/-- C1 witness: the amended claim at the concrete store dbOwned. -/
theorem claim_existing_increments_count_keeps_metadata_witness :
    mapLookup (getWaifusMap (cmd_claim dbOwned 7).1 7) "w1"
      = some ⟨"Aria", none, "Common", some 2⟩ :=
  claim_existing_increments_count_keeps_metadata dbOwned 7
    ⟨7, "w1", "Aria", none, "Legendary", 100⟩ ⟨"Aria", none, "Common", some 1⟩ rfl rfl

/-- C10: when the owned entry for the claimed collectible lacks a count field,
a successful claim sets count to 2 (the missing count is read back as 1 and
then incremented), never to 1. -/
theorem claim_missing_count_becomes_two (db : DB) (uid : Nat) (p : PendingRoll)
    (e : OwnedEntry)
    (hp : findPending db.pending uid = some p)
    (he : mapLookup (getWaifusMap db uid) p.waifu_id = some e)
    (hc : e.count = none) :
    mapLookup (getWaifusMap (cmd_claim db uid).1 uid) p.waifu_id
      = some { e with count := some 2 } := by
  rw [cmd_claim_getWaifusMap db uid p hp]
  have h2 := updateOwned_lookup_of_some (getWaifusMap db uid) p e he
  rw [hc] at h2
  exact h2

/-- C10 witness: the claim at the concrete store dbNoCount, whose owned w1
entry has no count field. -/
theorem claim_missing_count_becomes_two_witness :
    mapLookup (getWaifusMap (cmd_claim dbNoCount 7).1 7) "w1"
      = some ⟨"Aria", none, "Common", some 2⟩ :=
  claim_missing_count_becomes_two dbNoCount 7
    ⟨7, "w1", "Aria", none, "Legendary", 100⟩ ⟨"Aria", none, "Common", none⟩ rfl rfl rfl

/-- C5: with no PendingRoll for the user, claim returns the nothing-to-claim
failure and the whole store (pending, users, hence the user's collection and
UserRecord) is returned unchanged. -/
theorem claim_without_pending_is_noop (db : DB) (uid : Nat)
    (h : findPending db.pending uid = none) :
    cmd_claim db uid = (db, ClaimResult.nothingToClaim) :=
  cmd_claim_of_no_pending db uid h

/-- C5 witness: claim on the empty store. -/
theorem claim_without_pending_is_noop_witness :
    cmd_claim dbEmpty 1 = (dbEmpty, ClaimResult.nothingToClaim) :=
  claim_without_pending_is_noop dbEmpty 1 rfl

/-- C4: a successful claim deletes the user's PendingRoll, so a second claim
with no intervening catch finds none, returns the nothing-to-claim failure and
changes nothing. -/
theorem claim_consumes_pending (db : DB) (uid : Nat) (p : PendingRoll)
    (hmo : AtMostOnePending db.pending)
    (hp : findPending db.pending uid = some p) :
    findPending (cmd_claim db uid).1.pending uid = none
    ∧ cmd_claim (cmd_claim db uid).1 uid
        = ((cmd_claim db uid).1, ClaimResult.nothingToClaim) := by
  have h1 : findPending (cmd_claim db uid).1.pending uid = none := by
    rw [cmd_claim_pending_eq db uid p hp]
    exact findPending_deletePending db.pending uid hmo
  exact ⟨h1, cmd_claim_of_no_pending _ uid h1⟩

/-- C4 witness: double claim at the concrete store dbOwned. -/
theorem claim_consumes_pending_witness :
    findPending (cmd_claim dbOwned 7).1.pending 7 = none
    ∧ cmd_claim (cmd_claim dbOwned 7).1 7
        = ((cmd_claim dbOwned 7).1, ClaimResult.nothingToClaim) :=
  claim_consumes_pending dbOwned 7 ⟨7, "w1", "Aria", none, "Legendary", 100⟩
    (by simp [AtMostOnePending, dbOwned]) rfl

/-- C2: when now - last_roll_at < COOLDOWN_SECONDS (with last_roll_at read as
0 when the UserRecord or its last_catch field is absent), catch replies with
the remaining wait time and performs no mutation: the store, hence the user's
last_roll_at, PendingRoll and collection, is returned unchanged. -/
theorem catch_on_cooldown_is_noop (db : DB) (uid : Nat) (now : Int)
    (w : Option Waifu) (rarity : String) (cd : Int)
    (h : now - lastCatchOf db uid < cd) :
    cmd_catch db uid now w rarity cd
      = (db, CatchResult.cooldown (cd - (now - lastCatchOf db uid))) := by
  simp [cmd_catch, h]

/-- C2 witness: the cooldown reply at the concrete store dbCooldown
(last_catch 100, now 105, cooldown 15: wait 10 more seconds). -/
theorem catch_on_cooldown_is_noop_witness :
    cmd_catch dbCooldown 1 105 (some wAria) "Rare" 15
      = (dbCooldown, CatchResult.cooldown 10) :=
  catch_on_cooldown_is_noop dbCooldown 1 105 (some wAria) "Rare" 15 (by decide)

/-- C6: the cooldown decision of catch reads only the UserRecord (last_catch)
and the call's inputs, never the PendingRoll: two stores with the same users
list but arbitrarily different pending documents (different ts, or present
versus absent) produce the same reply. -/
theorem cooldown_outcome_independent_of_pending (db1 db2 : DB) (uid : Nat)
    (now : Int) (w : Option Waifu) (rarity : String) (cd : Int)
    (h : db1.users = db2.users) :
    (cmd_catch db1 uid now w rarity cd).2 = (cmd_catch db2 uid now w rarity cd).2 := by
  have hl : lastCatchOf db1 uid = lastCatchOf db2 uid := by
    simp [lastCatchOf, h]
  by_cases hc : now - lastCatchOf db2 uid < cd
  · simp [cmd_catch, hl, hc]
  · cases w <;> simp [cmd_catch, hl, hc]

/-- C6 witness: two stores differing only in the pending roll's ts field (5
versus 999) produce the same catch reply. -/
theorem cooldown_outcome_independent_of_pending_witness :
    (cmd_catch dbPendingA 1 105 (some wAria) "Rare" 15).2
      = (cmd_catch dbPendingB 1 105 (some wAria) "Rare" 15).2 :=
  cooldown_outcome_independent_of_pending dbPendingA dbPendingB 1 105 (some wAria)
    "Rare" 15 rfl

/-- C9: the rarity pool RARITY_CHOICES holds each tier exactly its integer
weight many times (Legendary 2, Epic 8, Rare 20, Common 70) and has 100
elements, so a uniformly random pick, which is what random.choice performs and
what pick_rarity exposes through its uniform index, returns tier t with
probability weight(t)/100; no label outside the four tiers can be returned. -/
theorem rarity_pool_spec :
    RARITY_CHOICES.length = 100
    ∧ RARITY_CHOICES.count "Legendary" = 2
    ∧ RARITY_CHOICES.count "Epic" = 8
    ∧ RARITY_CHOICES.count "Rare" = 20
    ∧ RARITY_CHOICES.count "Common" = 70
    ∧ (∀ r ∈ RARITY_CHOICES, r = "Legendary" ∨ r = "Epic" ∨ r = "Rare" ∨ r = "Common")
    ∧ ∀ n : Nat, pick_rarity n ∈ RARITY_CHOICES := by
  refine ⟨by decide, by decide, by decide, by decide, by decide, by decide, ?_⟩
  intro n
  have hlen : 0 < RARITY_CHOICES.length := by decide
  have h : n % RARITY_CHOICES.length < RARITY_CHOICES.length := Nat.mod_lt _ hlen
  unfold pick_rarity
  rw [List.getD_eq_getElem?_getD, List.getElem?_eq_getElem h]
  exact List.getElem_mem h

/-- C3: catch keeps the at-most-one-PendingRoll-per-user invariant and
overwrites (never accumulates) a prior unconfirmed roll: after catch at t1
(collectible w1) and catch at t2 (collectible w2), both off cooldown, the
user's single pending document carries w2's data, and the following claim
changes exactly one collection entry, the one keyed by w2's collectible id
(incremented when present, inserted with count 1 otherwise), leaving every
other key untouched. -/
theorem catch_overwrites_pending_invariant (db db1 db2 db3 : DB) (uid : Nat)
    (t1 t2 : Int) (w1 w2 : Waifu) (r1 r2 : String) (cd : Int)
    (hmo : AtMostOnePending db.pending)
    (h1 : ¬ t1 - lastCatchOf db uid < cd)
    (hdb1 : db1 = (cmd_catch db uid t1 (some w1) r1 cd).1)
    (h2 : ¬ t2 - lastCatchOf db1 uid < cd)
    (hdb2 : db2 = (cmd_catch db1 uid t2 (some w2) r2 cd).1)
    (hdb3 : db3 = (cmd_claim db2 uid).1) :
    AtMostOnePending db1.pending
    ∧ AtMostOnePending db2.pending
    ∧ findPending db2.pending uid = some ⟨uid, w2.waifu_id, w2.name, w2.img, r2, t2⟩
    ∧ (∀ k, k ≠ w2.waifu_id →
        mapLookup (getWaifusMap db3 uid) k = mapLookup (getWaifusMap db2 uid) k)
    ∧ mapLookup (getWaifusMap db3 uid) w2.waifu_id
        = some (match mapLookup (getWaifusMap db2 uid) w2.waifu_id with
            | some e => { e with count := some (e.count.getD 1 + 1) }
            | none => ⟨w2.name, w2.img, r2, some 1⟩) := by
  have e1 := cmd_catch_success db uid t1 w1 r1 cd h1
  have hp1 : db1.pending
      = upsertPending db.pending ⟨uid, w1.waifu_id, w1.name, w1.img, r1, t1⟩ := by
    rw [hdb1, e1]
  have a1 : AtMostOnePending db1.pending := by
    rw [hp1]
    exact atMostOne_upsertPending _ _ hmo
  have e2 := cmd_catch_success db1 uid t2 w2 r2 cd h2
  have hp2 : db2.pending
      = upsertPending db1.pending ⟨uid, w2.waifu_id, w2.name, w2.img, r2, t2⟩ := by
    rw [hdb2, e2]
  have a2 : AtMostOnePending db2.pending := by
    rw [hp2]
    exact atMostOne_upsertPending _ _ a1
  have f2 : findPending db2.pending uid
      = some ⟨uid, w2.waifu_id, w2.name, w2.img, r2, t2⟩ := by
    rw [hp2]
    exact findPending_upsertPending _ _
  have hmap : getWaifusMap db3 uid
      = updateOwned (getWaifusMap db2 uid) ⟨uid, w2.waifu_id, w2.name, w2.img, r2, t2⟩ := by
    rw [hdb3]
    exact cmd_claim_getWaifusMap db2 uid _ f2
  refine ⟨a1, a2, f2, ?_, ?_⟩
  · intro k hk
    rw [hmap]
    exact updateOwned_lookup_ne _ _ _ hk
  · rw [hmap]
    cases hlk : mapLookup (getWaifusMap db2 uid) w2.waifu_id with
    | none =>
      simp only [hlk]
      exact updateOwned_lookup_of_none _ _ hlk
    | some e =>
      simp only [hlk]
      exact updateOwned_lookup_of_some _ _ _ hlk

/-- C3 witness: the catch, catch, claim scenario at concrete inputs (user 1,
times 100 and 200, cooldown 15, collectibles wAria then wBeth). -/
theorem catch_overwrites_pending_invariant_witness :
    AtMostOnePending dbStep1.pending
    ∧ AtMostOnePending dbStep2.pending
    ∧ findPending dbStep2.pending 1 = some ⟨1, "w2", "Beth", none, "Epic", 200⟩
    ∧ (∀ k, k ≠ "w2" →
        mapLookup (getWaifusMap dbStep3 1) k = mapLookup (getWaifusMap dbStep2 1) k)
    ∧ mapLookup (getWaifusMap dbStep3 1) "w2"
        = some (match mapLookup (getWaifusMap dbStep2 1) "w2" with
            | some e => { e with count := some (e.count.getD 1 + 1) }
            | none => ⟨"Beth", none, "Epic", some 1⟩) :=
  catch_overwrites_pending_invariant dbEmpty dbStep1 dbStep2 dbStep3 1 100 200
    wAria wBeth "Rare" "Epic" 15 List.Pairwise.nil (by decide) rfl (by decide) rfl rfl

theorem invLE_iff (a b : String × OwnedEntry) :
    invLE a b = true ↔
      (b.2.count.getD 0 < a.2.count.getD 0
        ∨ (a.2.count.getD 0 = b.2.count.getD 0 ∧ a.2.rarity ≤ b.2.rarity)) := by
  simp [invLE]

theorem invLE_trans (a b c : String × OwnedEntry)
    (hab : invLE a b = true) (hbc : invLE b c = true) : invLE a c = true := by
  rw [invLE_iff] at hab hbc ⊢
  rcases hab with h1 | ⟨h1, h1r⟩ <;> rcases hbc with h2 | ⟨h2, h2r⟩
  · exact Or.inl (lt_trans h2 h1)
  · exact Or.inl (by omega)
  · exact Or.inl (by omega)
  · exact Or.inr ⟨h1.trans h2, le_trans h1r h2r⟩

theorem invLE_total (a b : String × OwnedEntry) :
    (invLE a b || invLE b a) = true := by
  rw [Bool.or_eq_true, invLE_iff, invLE_iff]
  rcases Nat.lt_trichotomy (a.2.count.getD 0) (b.2.count.getD 0) with h | h | h
  · exact Or.inr (Or.inl h)
  · rcases le_total a.2.rarity b.2.rarity with hr | hr
    · exact Or.inl (Or.inr ⟨h, hr⟩)
    · exact Or.inr (Or.inr ⟨h.symm, hr⟩)
  · exact Or.inl (Or.inl h)

theorem seqLines_map_some (ls : List String) : seqLines (ls.map some) = some ls := by
  induction ls with
  | nil => rfl
  | cons l ls ih => simp [seqLines, ih]

theorem seqLines_eq_some (xs : List (Option String)) (ls : List String)
    (h : seqLines xs = some ls) : xs = ls.map some := by
  induction xs generalizing ls with
  | nil =>
    simp only [seqLines, Option.some.injEq] at h
    subst h
    rfl
  | cons x rest ih =>
    cases x with
    | none => simp [seqLines] at h
    | some s =>
      cases hr : seqLines rest with
      | none => simp [seqLines, hr] at h
      | some ls2 =>
        simp only [seqLines, hr, Option.some.injEq] at h
        subst h
        simp [ih ls2 hr]

theorem seqLines_eq_none (xs : List (Option String)) :
    seqLines xs = none ↔ none ∈ xs := by
  induction xs with
  | nil => simp [seqLines]
  | cons x rest ih =>
    cases x with
    | none => simp [seqLines]
    | some s =>
      cases hr : seqLines rest with
      | none => simp [seqLines, hr, ih.mp hr]
      | some ls2 => simp [seqLines, hr, ← ih]

theorem invLine_eq_none_iff (i : Nat) (kv : String × OwnedEntry) :
    invLine i kv = none ↔ kv.2.count = none := by
  cases h : kv.2.count <;> simp [invLine, h]

/-- C7 counterexample: in the store dbNoCount user 7's collection is nonempty
(it holds w1 with no count field), yet inventory renders no listing at all:
the line format reads the count by direct subscript, the KeyError propagates
and the command aborts, so the claimed first-20 rendering is not produced. -/
theorem inventory_missing_count_aborts_cex :
    getWaifusMap dbNoCount 7 ≠ []
    ∧ cmd_inventory dbNoCount 7 = none
    ∧ (∀ lines, ¬ cmd_inventory dbNoCount 7 = some (InventoryResult.listing lines))
    ∧ ¬ cmd_inventory dbNoCount 7 = some InventoryResult.empty := by
  have hm : getWaifusMap dbNoCount 7
      = [("w1", ⟨"Aria", none, "Common", none⟩)] := rfl
  have hn : cmd_inventory dbNoCount 7 = none := by
    simp [cmd_inventory, hm, invLine, seqLines]
  refine ⟨by simp [hm], hn, ?_, by simp [hn]⟩
  intro lines h
  rw [hn] at h
  exact Option.noConfusion h

/-- C7 (amended): inventory replies the empty message exactly when the
collection map is empty; the stable sort orders entries by count descending
then rarity label ascending as a lexicographic string comparison; any listing
it replies holds at most 20 lines, exactly the 1-indexed renderings
"{i}. {name} — {rarity} x{count}" (invLine) of the first 20 sorted entries;
that listing is produced whenever the map is nonempty and each of those first
20 entries carries a count field, and the command instead aborts (KeyError,
no reply) exactly when the map is nonempty and one of those entries lacks
count. -/
theorem inventory_sorted_truncated (db : DB) (uid : Nat) :
    (cmd_inventory db uid = some InventoryResult.empty ↔ getWaifusMap db uid = [])
    ∧ ((getWaifusMap db uid).mergeSort invLE).Perm (getWaifusMap db uid)
    ∧ ((getWaifusMap db uid).mergeSort invLE).Pairwise (fun a b =>
        b.2.count.getD 0 < a.2.count.getD 0
          ∨ (a.2.count.getD 0 = b.2.count.getD 0 ∧ a.2.rarity ≤ b.2.rarity))
    ∧ (∀ lines, cmd_inventory db uid = some (InventoryResult.listing lines) →
        lines.length ≤ 20
        ∧ (((getWaifusMap db uid).mergeSort invLE).take 20).mapIdx invLine
            = lines.map some)
    ∧ (getWaifusMap db uid ≠ [] →
        (∀ kv ∈ ((getWaifusMap db uid).mergeSort invLE).take 20, kv.2.count.isSome) →
        ∃ lines, cmd_inventory db uid = some (InventoryResult.listing lines)
          ∧ (((getWaifusMap db uid).mergeSort invLE).take 20).mapIdx invLine
              = lines.map some)
    ∧ (cmd_inventory db uid = none ↔
        getWaifusMap db uid ≠ []
        ∧ ∃ kv ∈ ((getWaifusMap db uid).mergeSort invLE).take 20,
            kv.2.count = none) := by
  refine ⟨?_, List.mergeSort_perm _ invLE, ?_, ?_, ?_, ?_⟩
  · cases hm : getWaifusMap db uid with
    | nil => simp [cmd_inventory, hm]
    | cons x xs =>
      cases hs : seqLines ((((x :: xs).mergeSort invLE).take 20).mapIdx invLine) with
      | none => simp [cmd_inventory, hm, hs]
      | some ls => simp [cmd_inventory, hm, hs]
  · exact (List.sorted_mergeSort invLE_trans invLE_total (getWaifusMap db uid)).imp
      (fun hab => (invLE_iff _ _).mp hab)
  · intro lines hl
    cases hm : getWaifusMap db uid with
    | nil => simp [cmd_inventory, hm] at hl
    | cons x xs =>
      cases hs : seqLines ((((x :: xs).mergeSort invLE).take 20).mapIdx invLine) with
      | none => simp [cmd_inventory, hm, hs] at hl
      | some ls =>
        simp only [cmd_inventory, hm, List.isEmpty_cons, Bool.false_eq_true, if_false,
          hs, Option.some.injEq, InventoryResult.listing.injEq] at hl
        subst hl
        have hmap := seqLines_eq_some _ _ hs
        constructor
        · have h1 := congrArg List.length hmap
          simp only [List.length_mapIdx, List.length_map] at h1
          rw [← h1]
          exact List.length_take_le 20 _
        · exact hmap
  · intro hne hall
    cases hm : getWaifusMap db uid with
    | nil => exact absurd hm hne
    | cons x xs =>
      rw [hm] at hall
      have hnone : ¬ none ∈ (((x :: xs).mergeSort invLE).take 20).mapIdx invLine := by
        intro hn
        rw [List.mem_mapIdx] at hn
        obtain ⟨i, hi, hinv⟩ := hn
        have hc := (invLine_eq_none_iff _ _).mp hinv
        have hks := hall _ (List.getElem_mem hi)
        rw [hc] at hks
        exact Bool.noConfusion hks
      cases hs : seqLines ((((x :: xs).mergeSort invLE).take 20).mapIdx invLine) with
      | none => exact absurd ((seqLines_eq_none _).mp hs) hnone
      | some ls =>
        refine ⟨ls, ?_, seqLines_eq_some _ _ hs⟩
        simp [cmd_inventory, hm, hs]
  · cases hm : getWaifusMap db uid with
    | nil => simp [cmd_inventory, hm]
    | cons x xs =>
      cases hs : seqLines ((((x :: xs).mergeSort invLE).take 20).mapIdx invLine) with
      | none =>
        have h1 : none ∈ (((x :: xs).mergeSort invLE).take 20).mapIdx invLine :=
          (seqLines_eq_none _).mp hs
        rw [List.mem_mapIdx] at h1
        obtain ⟨i, hi, hinv⟩ := h1
        simp only [cmd_inventory, hm, List.isEmpty_cons, Bool.false_eq_true, if_false, hs]
        constructor
        · intro _
          exact ⟨List.cons_ne_nil x xs,
            ⟨_, List.getElem_mem hi, (invLine_eq_none_iff _ _).mp hinv⟩⟩
        · intro _
          trivial
      | some ls =>
        have hmap := seqLines_eq_some _ _ hs
        simp only [cmd_inventory, hm, List.isEmpty_cons, Bool.false_eq_true, if_false, hs]
        constructor
        · intro hfalse
          exact Option.noConfusion hfalse
        · rintro ⟨-, kv, hkv, hc⟩
          obtain ⟨i, hi, hkveq⟩ := List.mem_iff_getElem.mp hkv
          have hinv : invLine i ((((x :: xs).mergeSort invLE).take 20)[i]) = none := by
            rw [hkveq]
            exact (invLine_eq_none_iff _ _).mpr hc
          have hmem : none ∈ (((x :: xs).mergeSort invLE).take 20).mapIdx invLine :=
            List.mem_mapIdx.mpr ⟨i, hi, hinv⟩
          rw [hmap] at hmem
          obtain ⟨s, -, hsome⟩ := List.mem_map.mp hmem
          exact Option.noConfusion hsome

theorem lbScore_eq_some (d : UserRecord) (x : Nat × Nat) :
    lbScore d = some x ↔
      0 < totalCount d.waifus_map ∧ x = (d.user_id, totalCount d.waifus_map) := by
  by_cases h : 0 < totalCount d.waifus_map
  · simp [lbScore, h, eq_comm]
  · simp [lbScore, h]

theorem lbScore_eq_none (d : UserRecord) :
    lbScore d = none ↔ totalCount d.waifus_map = 0 := by
  by_cases h : 0 < totalCount d.waifus_map
  · simp [lbScore, h]
    omega
  · simp [lbScore, h]
    omega

theorem lbLE_trans (a b c : Nat × Nat)
    (h1 : lbLE a b = true) (h2 : lbLE b c = true) : lbLE a c = true := by
  simp only [lbLE, decide_eq_true_eq] at h1 h2 ⊢
  omega

theorem lbLE_total (a b : Nat × Nat) : (lbLE a b || lbLE b a) = true := by
  simp only [lbLE, Bool.or_eq_true, decide_eq_true_eq]
  omega

/-- C8: the leaderboard scans only the first 100 user documents, drops every
user whose total owned count is 0, returns at most 10 entries in
non-increasing order of total, and replies "no data yet" exactly when no
scanned user has a positive total. -/
theorem leaderboard_top10_positive_sorted (db : DB) :
    (cmd_leaderboard db = LeaderboardResult.noData ↔
      ∀ u ∈ db.users.take 100, totalCount u.waifus_map = 0)
    ∧ (∀ l, cmd_leaderboard db = LeaderboardResult.board l →
        l.length ≤ 10
        ∧ (∀ x ∈ l, 0 < x.2
            ∧ ∃ u ∈ db.users.take 100, u.user_id = x.1 ∧ totalCount u.waifus_map = x.2)
        ∧ l.Pairwise (fun a b => b.2 ≤ a.2)) := by
  constructor
  · constructor
    · intro h u hu
      by_contra hz
      have hpos : 0 < totalCount u.waifus_map := Nat.pos_of_ne_zero hz
      have hmem : (u.user_id, totalCount u.waifus_map)
          ∈ (db.users.take 100).filterMap lbScore :=
        List.mem_filterMap.mpr ⟨u, hu, (lbScore_eq_some u _).mpr ⟨hpos, rfl⟩⟩
      have hmem2 : (u.user_id, totalCount u.waifus_map)
          ∈ ((db.users.take 100).filterMap lbScore).mergeSort lbLE :=
        ((List.mergeSort_perm _ lbLE).mem_iff).mpr hmem
      have htake : (((db.users.take 100).filterMap lbScore).mergeSort lbLE).take 10
          ≠ [] := by
        intro hnil
        rcases List.take_eq_nil_iff.mp hnil with h10 | hnil2
        · exact absurd h10 (by omega)
        · exact (List.ne_nil_of_mem hmem2) hnil2
      have hcond :
          ¬ ((((db.users.take 100).filterMap lbScore).mergeSort lbLE).take 10).isEmpty
            = true := by
        simpa [List.isEmpty_iff] using htake
      simp only [cmd_leaderboard, if_neg hcond] at h
      exact LeaderboardResult.noConfusion h
    · intro hz
      have hnil : (db.users.take 100).filterMap lbScore = [] :=
        List.filterMap_eq_nil_iff.mpr (fun u hu => (lbScore_eq_none u).mpr (hz u hu))
      simp [cmd_leaderboard, hnil]
  · intro l hl
    simp only [cmd_leaderboard] at hl
    split at hl
    · exact LeaderboardResult.noConfusion hl
    · simp only [LeaderboardResult.board.injEq] at hl
      refine ⟨?_, ?_, ?_⟩
      · rw [← hl]
        exact List.length_take_le 10 _
      · intro x hx
        rw [← hl] at hx
        have hx2 : x ∈ ((db.users.take 100).filterMap lbScore).mergeSort lbLE :=
          List.mem_of_mem_take hx
        have hx3 : x ∈ (db.users.take 100).filterMap lbScore :=
          (List.mergeSort_perm _ lbLE).mem_iff.mp hx2
        obtain ⟨u, hu, hf⟩ := List.mem_filterMap.mp hx3
        obtain ⟨hpos, hxeq⟩ := (lbScore_eq_some u x).mp hf
        subst hxeq
        exact ⟨hpos, u, hu, rfl, rfl⟩
      · rw [← hl]
        have hs := List.sorted_mergeSort lbLE_trans lbLE_total
          ((db.users.take 100).filterMap lbScore)
        exact (List.Pairwise.sublist (List.take_sublist 10 _) hs).imp
          (fun hab => by simpa [lbLE] using hab)

end WaifuBot
